import Mathlib

/-!
A shallow embedding of the GlobalISel `Legalizer` pass
(`llvm/lib/CodeGen/GlobalISel/Legalizer.cpp`).

The pass body `Legalizer::runOnMachineFunction` is modelled as a small-step
state machine driven by a fuel parameter: one `step` performs one iteration
of one of the two inner `while` loops (or one phase transition, or the final
block-count check).  The external collaborators — the per-target legality
driver `LegalizerHelper::legalizeInstrStep` and the
`LegalizationArtifactCombiner` — are parameters of the machine; they report
an outcome and a list of graph mutations, and every mutation they perform is
routed through the `LegalizerWorkListManager` change observer, exactly as
the real helpers mutate the function through the observed `MachineIRBuilder`.

Machine instructions are identified by numeric ids; an instruction carries
its opcode and the list of ids of the instructions whose values it uses.
The state additionally records a chronological event log and the emitted
diagnostics so that temporal properties (processing order, observer routing,
diagnostic emission) can be stated about runs.
-/

namespace LegalizerPass

/-- Machine opcodes, abstracted.  The eight artifact opcodes are the ones
named in the `isArtifact` switch of `Legalizer.cpp`; `genericOther` covers
the remaining pre-ISel generic opcodes and `targetOp` the target-specific
ones.  Whether an opcode has observable side effects is carried as a flag
(consulted by the dead-code check). -/
inductive Opcode where
  | gTrunc
  | gZext
  | gAnyext
  | gSext
  | gMergeValues
  | gUnmergeValues
  | gConcatVectors
  | gBuildVector
  | genericOther (n : Nat) (sideEffects : Bool)
  | targetOp (n : Nat) (sideEffects : Bool)
deriving DecidableEq, Repr

/-- The `isArtifact` switch of `Legalizer.cpp`: exactly the eight
format-bridging generic opcodes are artifacts. -/
def isArtifact : Opcode → Bool
  | .gTrunc => true
  | .gZext => true
  | .gAnyext => true
  | .gSext => true
  | .gMergeValues => true
  | .gUnmergeValues => true
  | .gConcatVectors => true
  | .gBuildVector => true
  | _ => false

/-- Modelled from the spec: `isPreISelGenericOpcode` (declared in
`TargetOpcode.h`, which is not part of this excerpt).  Per the spec's
eligibility predicate, pre-ISel generic opcodes are eligible and
target-specific opcodes are not. -/
def isPreISelGenericOpcode : Opcode → Bool
  | .targetOp _ _ => false
  | _ => true

/-- Whether an opcode has observable side effects (stores, calls,
barriers never count as dead). -/
def Opcode.hasSideEffects : Opcode → Bool
  | .genericOther _ se => se
  | .targetOp _ se => se
  | _ => false

/-- A machine instruction: an identity, its current opcode, and the ids of
the instructions whose values it currently uses. -/
structure Instr where
  id : Nat
  opcode : Opcode
  uses : List Nat
deriving DecidableEq, Repr

/-- Modelled from the spec: the dead-code check `isTriviallyDead` (defined
in `GlobalISel/Utils.cpp`, not part of this excerpt).  Per §4.5 of the spec
an instruction is dead iff it has no remaining uses in the program and has
no observable side effect. -/
def isTriviallyDead (prog : List Instr) (i : Nat) : Bool :=
  !(prog.any fun j => j.uses.contains i) &&
  !(match prog.find? (fun j => j.id == i) with
    | some j => j.opcode.hasSideEffects
    | none => false)

/-- Modelled from the spec: `GISelWorkList::insert` (the header is not part
of this excerpt) — a deduplicating insert at the end, a no-op when the
element is already present. -/
def wlInsert (wl : List Nat) (i : Nat) : List Nat :=
  if wl.contains i then wl else wl ++ [i]

/-- Modelled from the spec: `GISelWorkList::remove` — removal of an element,
a no-op when the element is absent. -/
def wlRemove (wl : List Nat) (i : Nat) : List Nat :=
  wl.filter (fun x => x != i)

/-- Modelled from the spec: `GISelWorkList::pop_back_val` — pop from the end
of the worklist. -/
def popBack (wl : List Nat) : Option (Nat × List Nat) :=
  match wl.getLast? with
  | none => none
  | some x => some (x, wl.dropLast)

/-- The pair of worklists owned by the pass: the primary instruction list
(`InstListTy InstList`) and the artifact list (`ArtifactListTy
ArtifactList`), holding instruction ids. -/
structure WorkLists where
  instList : List Nat
  artifactList : List Nat
deriving DecidableEq, Repr

/-- The observer notification `LegalizerWorkListManager::createdInstr`: only pre-ISel generic
instructions are recorded; artifacts go to the artifact list, everything
else eligible to the primary list. -/
def createdInstr (op : Opcode) (i : Nat) (w : WorkLists) : WorkLists :=
  if isPreISelGenericOpcode op then
    if isArtifact op then { w with artifactList := wlInsert w.artifactList i }
    else { w with instList := wlInsert w.instList i }
  else w

/-- The observer notification `LegalizerWorkListManager::erasingInstr`: remove the instruction from
both worklists. -/
def erasingInstr (i : Nat) (w : WorkLists) : WorkLists :=
  { instList := wlRemove w.instList i, artifactList := wlRemove w.artifactList i }

/-- The observer notification `LegalizerWorkListManager::changingInstr`: informational only, no
worklist effect. -/
def changingInstr (_i : Nat) (w : WorkLists) : WorkLists := w

/-- The observer notification `LegalizerWorkListManager::changedInstr`: treated the same as a
creation ("we'll consider them the same as created"). -/
def changedInstr (op : Opcode) (i : Nat) (w : WorkLists) : WorkLists :=
  createdInstr op i w

/-- One step of the seeding loop body (`Legalizer.cpp`, the loop over
`MachineInstr &MI : *MBB`): skip non-pre-ISel-generic instructions,
classify the rest by `isArtifact` and insert into the matching list. -/
def seedStep (w : WorkLists) (mi : Instr) : WorkLists :=
  if isPreISelGenericOpcode mi.opcode then
    if isArtifact mi.opcode then { w with artifactList := wlInsert w.artifactList mi.id }
    else { w with instList := wlInsert w.instList mi.id }
  else w

/-- Seeding of one basic block: scan its instructions in program order. -/
def seedBlock (w : WorkLists) (b : List Instr) : WorkLists := b.foldl seedStep w

/-- The seeding loop: the basic blocks are supplied already enumerated in
reverse postorder (the `ReversePostOrderTraversal` used by the source lives
in an ADT header outside this excerpt); within each block instructions are
scanned top-down. -/
def seedWorkLists (bs : List (List Instr)) : WorkLists :=
  bs.foldl seedBlock { instList := [], artifactList := [] }

/-- Graph mutations the external legality driver and artifact combiner may
perform.  Every one of them is routed through the change observer, matching
the source where the helpers mutate the function through the observed
builder.  `insertBlock` models a control-flow-splitting rewrite that grows
the basic-block count. -/
inductive Action where
  | createInstr (i : Instr)
  | changeInstr (i : Nat) (op : Opcode) (u : List Nat)
  | eraseInstr (i : Nat)
  | insertBlock
deriving DecidableEq, Repr

/-- Erase an instruction from the program. -/
def progErase (prog : List Instr) (i : Nat) : List Instr :=
  prog.filter (fun j => j.id != i)

/-- Mutate an instruction in place (same identity, new opcode and uses). -/
def progChange (prog : List Instr) (i : Nat) (op : Opcode) (u : List Nat) : List Instr :=
  prog.map (fun j => if j.id == i then { id := i, opcode := op, uses := u } else j)

/-- Insert a new instruction into the program. -/
def progCreate (prog : List Instr) (ins : Instr) : List Instr := prog ++ [ins]

/-- Outcomes of `LegalizerHelper::legalizeInstrStep`. -/
inductive LegalizeResult where
  | AlreadyLegal
  | Legalized
  | UnableToLegalize
deriving DecidableEq, Repr

/-- Chronological events of a run: pops from the two worklists, outcomes
reported by the driver and the combiner, observer-routed mutations
(`mutCreate`, `mutChange`, `mutErase`), the direct erasure the primary
drain loop performs on a dead instruction without notifying the observer
(`directErase`), and block insertion. -/
inductive Event where
  | poppedPrimary (i : Nat)
  | poppedArtifact (i : Nat)
  | legalizeStep (i : Nat) (res : LegalizeResult)
  | combineStep (i : Nat) (ok : Bool)
  | mutCreate (ins : Instr)
  | mutChange (i : Nat) (op : Opcode) (u : List Nat)
  | mutErase (i : Nat)
  | directErase (i : Nat)
  | blockInserted
deriving DecidableEq, Repr

/-- Reasons of the two failure diagnostics emitted through
`reportGISelFailure` ("unable to legalize instruction" and "inserting
blocks is not supported yet"). -/
inductive DiagReason where
  | unableToLegalize
  | insertingBlocksNotSupported
deriving DecidableEq, Repr

/-- A structured diagnostic record: the reason and, when one is named, the
offending instruction. -/
structure Diagnostic where
  reason : DiagReason
  instr : Option Nat
deriving DecidableEq, Repr

/-- Phases of the scheduler: the primary drain loop, the artifact drain
loop, and the final block-count check after the `do`/`while`. -/
inductive Phase where
  | drainPrimary
  | drainArtifacts
  | postCheck
deriving DecidableEq, Repr

/-- The full state of one invocation of `Legalizer::runOnMachineFunction`:
the program, both worklists, the `Changed` flag, the block count captured
at entry (`NumBlocks`) and the current block count, whether the builder is
still observing changes, the current phase, the event log and the emitted
diagnostics. -/
structure SchedState where
  prog : List Instr
  wl : WorkLists
  changed : Bool
  numBlocks : Nat
  curBlocks : Nat
  observing : Bool
  phase : Phase
  log : List Event
  diags : List Diagnostic
deriving DecidableEq, Repr

/-- Apply one observer-routed mutation: update the program, notify the
`LegalizerWorkListManager` (a change fires `changingInstr` then
`changedInstr`; an erasure fires `erasingInstr`), and log the event. -/
def applyAction (s : SchedState) (a : Action) : SchedState :=
  match a with
  | .createInstr ins =>
      { s with prog := progCreate s.prog ins,
               wl := createdInstr ins.opcode ins.id s.wl,
               log := s.log ++ [.mutCreate ins] }
  | .changeInstr i op u =>
      { s with prog := progChange s.prog i op u,
               wl := changedInstr op i (changingInstr i s.wl),
               log := s.log ++ [.mutChange i op u] }
  | .eraseInstr i =>
      { s with prog := progErase s.prog i,
               wl := erasingInstr i s.wl,
               log := s.log ++ [.mutErase i] }
  | .insertBlock =>
      { s with curBlocks := s.curBlocks + 1,
               log := s.log ++ [.blockInserted] }

/-- Apply a list of observer-routed mutations left to right. -/
def applyActions (s : SchedState) (as : List Action) : SchedState :=
  as.foldl applyAction s

/-- The helper `RemoveDeadInstFromLists` followed by
`eraseFromParentAndMarkDBGValuesForRemoval`: notify the observer (which
removes the instruction from both worklists) and erase it from the
program. -/
def deadListErase (s : SchedState) (d : Nat) : SchedState :=
  { s with wl := erasingInstr d s.wl,
           prog := progErase s.prog d,
           log := s.log ++ [.mutErase d] }

/-- The three `return` sites of `runOnMachineFunction`: the normal return
of `Changed`, the `UnableToLegalize` failure, and the block-count failure.
Each carries the final state. -/
inductive RunResult where
  | success (changed : Bool) (s : SchedState)
  | failedLegalize (x : Nat) (s : SchedState)
  | failedBlocks (s : SchedState)
deriving DecidableEq, Repr

/-- The boolean the pass entry point returns to the caller: `Changed` on
the normal path, `false` on both failure paths. -/
def retVal : RunResult → Bool
  | .success c _ => c
  | .failedLegalize _ _ => false
  | .failedBlocks _ => false

/-- Result of one small step: either the machine keeps running or the pass
returned. -/
inductive StepOut where
  | running (s : SchedState)
  | finished (r : RunResult)
deriving DecidableEq, Repr

/-- One small step of `runOnMachineFunction`, with the legality driver `L`
and the artifact combiner `C` as parameters.

In phase `drainPrimary` (the first inner `while`): if the primary list is
empty move to the artifact loop; otherwise pop from the back, erase the
instruction directly (no observer notification) when it is trivially dead,
and otherwise run the driver, applying its mutations through the observer;
`UnableToLegalize` stops observing, emits the diagnostic and returns
`false`, while otherwise `Changed` accumulates `res == Legalized`.

In phase `drainArtifacts` (the second inner `while`): if the artifact list
is empty, loop back to `drainPrimary` when the primary list is non-empty
(the `do`/`while` condition) and otherwise fall through to the post check;
otherwise pop from the back, erase a trivially dead instruction through
`RemoveDeadInstFromLists`, and otherwise run the combiner: on success erase
every reported dead instruction through the observer and set `Changed`, on
failure insert the instruction into the primary list.

In phase `postCheck`: fail (without stopping observation) when the block
count changed, otherwise return `Changed`. -/
def step (L : Nat → List Instr → LegalizeResult × List Action)
    (C : Nat → List Instr → Option (List Action × List Nat))
    (s : SchedState) : StepOut :=
  match s.phase with
  | .drainPrimary =>
    match popBack s.wl.instList with
    | none => .running { s with phase := .drainArtifacts }
    | some (mi, rest) =>
      let s1 : SchedState :=
        { s with wl := { s.wl with instList := rest },
                 log := s.log ++ [.poppedPrimary mi] }
      if isTriviallyDead s1.prog mi then
        .running { s1 with prog := progErase s1.prog mi,
                           log := s1.log ++ [.directErase mi] }
      else
        let res := (L mi s1.prog).1
        let s2 := applyActions s1 (L mi s1.prog).2
        let s3 : SchedState := { s2 with log := s2.log ++ [.legalizeStep mi res] }
        if res = .UnableToLegalize then
          .finished (.failedLegalize mi
            { s3 with observing := false,
                      diags := s3.diags ++ [⟨.unableToLegalize, some mi⟩] })
        else
          .running { s3 with changed := s3.changed || (res = .Legalized : Bool) }
  | .drainArtifacts =>
    match popBack s.wl.artifactList with
    | none =>
      if s.wl.instList.isEmpty then .running { s with phase := .postCheck }
      else .running { s with phase := .drainPrimary }
    | some (mi, rest) =>
      let s1 : SchedState :=
        { s with wl := { s.wl with artifactList := rest },
                 log := s.log ++ [.poppedArtifact mi] }
      if isTriviallyDead s1.prog mi then
        .running (deadListErase s1 mi)
      else
        match C mi s1.prog with
        | some (acts, deadList) =>
          let s2 := applyActions s1 acts
          let s3 : SchedState := { s2 with log := s2.log ++ [.combineStep mi true] }
          .running { deadList.foldl deadListErase s3 with changed := true }
        | none =>
          .running { s1 with wl := { s1.wl with instList := wlInsert s1.wl.instList mi },
                             log := s1.log ++ [.combineStep mi false] }
  | .postCheck =>
    if s.curBlocks ≠ s.numBlocks then
      .finished (.failedBlocks
        { s with diags := s.diags ++ [⟨.insertingBlocksNotSupported, none⟩] })
    else
      .finished (.success s.changed s)

/-- Run up to `n` small steps; a finished run is absorbing. -/
def steps (L : Nat → List Instr → LegalizeResult × List Action)
    (C : Nat → List Instr → Option (List Action × List Nat)) :
    Nat → SchedState → StepOut
  | 0, s => .running s
  | Nat.succ n, s =>
    match step L C s with
    | .running s' => steps L C n s'
    | .finished r => .finished r

/-- The initial state of a run on a function given as its basic blocks in
reverse postorder: the program is the concatenation of the blocks, the
worklists are seeded, `Changed` is `false`, the block count is captured,
the observer is attached, and the primary drain loop starts. -/
def initState (bs : List (List Instr)) : SchedState :=
  { prog := bs.flatten,
    wl := seedWorkLists bs,
    changed := false,
    numBlocks := bs.length,
    curBlocks := bs.length,
    observing := true,
    phase := .drainPrimary,
    log := [],
    diags := [] }

end LegalizerPass

namespace LegalizerPass

/-! Basic worklist lemmas. -/

theorem wlInsert_of_not_mem {wl : List Nat} {i : Nat} (h : i ∉ wl) :
    wlInsert wl i = wl ++ [i] := by
  simp only [wlInsert]
  rw [if_neg]
  simp only [List.contains, List.elem_iff]
  exact h

theorem mem_wlRemove {wl : List Nat} {x i : Nat} :
    x ∈ wlRemove wl i ↔ x ∈ wl ∧ x ≠ i := by
  simp [wlRemove, List.mem_filter]

theorem wlRemove_of_not_mem {wl : List Nat} {i : Nat} (h : i ∉ wl) :
    wlRemove wl i = wl := by
  apply List.filter_eq_self.mpr
  intro a ha
  simp only [bne_iff_ne, ne_eq]
  exact fun e => h (e ▸ ha)

theorem not_mem_wlRemove {wl : List Nat} {i : Nat} : i ∉ wlRemove wl i := by
  intro h
  exact (mem_wlRemove.mp h).2 rfl

theorem wlRemove_length_le (wl : List Nat) (i : Nat) :
    (wlRemove wl i).length ≤ wl.length :=
  List.length_filter_le _ wl

theorem wlInsert_length_le (wl : List Nat) (i : Nat) :
    (wlInsert wl i).length ≤ wl.length + 1 := by
  simp only [wlInsert]
  split
  · exact Nat.le_succ _
  · simp

theorem popBack_concat (l : List Nat) (a : Nat) :
    popBack (l ++ [a]) = some (a, l) := by
  simp [popBack, List.getLast?_concat, List.dropLast_concat]

theorem popBack_some_length {l rest : List Nat} {mi : Nat}
    (h : popBack l = some (mi, rest)) : l.length = rest.length + 1 := by
  simp only [popBack] at h
  match hl : l.getLast? with
  | none => rw [hl] at h; cases h
  | some x =>
      rw [hl] at h
      cases h
      have hne : l ≠ [] := by
        intro e
        subst e
        simp at hl
      cases l with
      | nil => cases hne rfl
      | cons b bs => simp [List.length_dropLast]

/-! Claim C6: the change observer `LegalizerWorkListManager`. -/

/-- C6: `created` and `changed` behave identically — for an eligible
(pre-ISel generic) opcode they insert the instruction into the artifact
queue when it is an artifact and into the primary queue otherwise, and do
nothing for non-eligible opcodes; `erasing` removes the instruction from
both queues unconditionally and is a no-op when it is absent from both;
`changing` has no worklist effect. -/
theorem claim6_observer (op : Opcode) (i : Nat) (w : WorkLists) :
    (changedInstr op i w = createdInstr op i w) ∧
    (isPreISelGenericOpcode op = true → isArtifact op = true →
      createdInstr op i w = { w with artifactList := wlInsert w.artifactList i }) ∧
    (isPreISelGenericOpcode op = true → isArtifact op = false →
      createdInstr op i w = { w with instList := wlInsert w.instList i }) ∧
    (isPreISelGenericOpcode op = false → createdInstr op i w = w) ∧
    (erasingInstr i w =
      { instList := wlRemove w.instList i, artifactList := wlRemove w.artifactList i }) ∧
    (i ∉ w.instList → i ∉ w.artifactList → erasingInstr i w = w) ∧
    (changingInstr i w = w) := by
  refine ⟨rfl, ?_, ?_, ?_, rfl, ?_, rfl⟩
  · intro h1 h2
    simp [createdInstr, h1, h2]
  · intro h1 h2
    simp [createdInstr, h1, h2]
  · intro h1
    simp [createdInstr, h1]
  · intro h1 h2
    simp only [erasingInstr, wlRemove_of_not_mem h1, wlRemove_of_not_mem h2]

theorem claim6_observer_witness :
    isPreISelGenericOpcode Opcode.gTrunc = true ∧
    createdInstr Opcode.gTrunc 0 ⟨[], []⟩ =
      { instList := [], artifactList := wlInsert [] 0 } :=
  ⟨by decide, (claim6_observer Opcode.gTrunc 0 ⟨[], []⟩).2.1 (by decide) (by decide)⟩

/-! Claim C7: seeding of the two worklists. -/

/-- Eligible non-artifact instructions (go to the primary list). -/
def eligibleOrdinary (i : Instr) : Bool :=
  isPreISelGenericOpcode i.opcode && !isArtifact i.opcode

/-- Eligible artifact instructions (go to the artifact list). -/
def eligibleArtifact (i : Instr) : Bool :=
  isPreISelGenericOpcode i.opcode && isArtifact i.opcode

theorem seedList_spec :
    ∀ (l : List Instr) (w : WorkLists),
      (l.map Instr.id).Nodup →
      (∀ i ∈ l, i.id ∉ w.instList ∧ i.id ∉ w.artifactList) →
      l.foldl seedStep w =
        { instList := w.instList ++ (l.filter eligibleOrdinary).map Instr.id,
          artifactList := w.artifactList ++ (l.filter eligibleArtifact).map Instr.id } := by
  intro l
  induction l with
  | nil => intro w _ _; simp
  | cons a tl ih =>
      intro w hnd hdisj
      have hnd' : (tl.map Instr.id).Nodup := by
        simp only [List.map_cons, List.nodup_cons] at hnd
        exact hnd.2
      have hanotin : a.id ∉ tl.map Instr.id := by
        simp only [List.map_cons, List.nodup_cons] at hnd
        exact hnd.1
      have hdisja := hdisj a (List.mem_cons_self a tl)
      simp only [List.foldl_cons]
      by_cases he : isPreISelGenericOpcode a.opcode = true
      · by_cases hart : isArtifact a.opcode = true
        · have hw : seedStep w a = { w with artifactList := wlInsert w.artifactList a.id } := by
            simp [seedStep, he, hart]
          rw [hw, ih _ hnd' ?_]
          · rw [wlInsert_of_not_mem hdisja.2]
            have hfo : (a :: tl).filter eligibleOrdinary = tl.filter eligibleOrdinary := by
              simp [List.filter_cons, eligibleOrdinary, he, hart]
            have hfa : (a :: tl).filter eligibleArtifact = a :: tl.filter eligibleArtifact := by
              simp [List.filter_cons, eligibleArtifact, he, hart]
            rw [hfo, hfa]
            simp
          · intro i hi
            refine ⟨(hdisj i (List.mem_cons_of_mem a hi)).1, ?_⟩
            rw [wlInsert_of_not_mem hdisja.2]
            simp only [List.mem_append, List.mem_singleton]
            rintro (h | h)
            · exact (hdisj i (List.mem_cons_of_mem a hi)).2 h
            · exact hanotin (h ▸ List.mem_map_of_mem Instr.id hi)
        · have hartf : isArtifact a.opcode = false := by
            simpa using hart
          have hw : seedStep w a = { w with instList := wlInsert w.instList a.id } := by
            simp [seedStep, he, hartf]
          rw [hw, ih _ hnd' ?_]
          · rw [wlInsert_of_not_mem hdisja.1]
            have hfo : (a :: tl).filter eligibleOrdinary = a :: tl.filter eligibleOrdinary := by
              simp [List.filter_cons, eligibleOrdinary, he, hartf]
            have hfa : (a :: tl).filter eligibleArtifact = tl.filter eligibleArtifact := by
              simp [List.filter_cons, eligibleArtifact, he, hartf]
            rw [hfo, hfa]
            simp
          · intro i hi
            refine ⟨?_, (hdisj i (List.mem_cons_of_mem a hi)).2⟩
            rw [wlInsert_of_not_mem hdisja.1]
            simp only [List.mem_append, List.mem_singleton]
            rintro (h | h)
            · exact (hdisj i (List.mem_cons_of_mem a hi)).1 h
            · exact hanotin (h ▸ List.mem_map_of_mem Instr.id hi)
      · have hef : isPreISelGenericOpcode a.opcode = false := by simpa using he
        have hw : seedStep w a = w := by simp [seedStep, hef]
        rw [hw, ih _ hnd' (fun i hi => hdisj i (List.mem_cons_of_mem a hi))]
        have hfo : (a :: tl).filter eligibleOrdinary = tl.filter eligibleOrdinary := by
          simp [List.filter_cons, eligibleOrdinary, hef]
        have hfa : (a :: tl).filter eligibleArtifact = tl.filter eligibleArtifact := by
          simp [List.filter_cons, eligibleArtifact, hef]
        rw [hfo, hfa]

/-- C7: seeding scans the blocks in the supplied reverse-postorder
enumeration and, within each block, the instructions in program order;
assuming distinct instruction identities, the primary list ends up holding
exactly the eligible non-artifact instructions in traversal order, the
artifact list exactly the eligible artifacts in traversal order (so popping
from the back processes each block bottom-up), each exactly once (both
lists are duplicate-free), and non-eligible instructions are skipped. -/
theorem claim7_seeding (bs : List (List Instr))
    (h : (bs.flatten.map Instr.id).Nodup) :
    seedWorkLists bs =
      { instList := (bs.flatten.filter eligibleOrdinary).map Instr.id,
        artifactList := (bs.flatten.filter eligibleArtifact).map Instr.id } ∧
    ((bs.flatten.filter eligibleOrdinary).map Instr.id).Nodup ∧
    ((bs.flatten.filter eligibleArtifact).map Instr.id).Nodup := by
  refine ⟨?_, ?_, ?_⟩
  · have : seedWorkLists bs = bs.flatten.foldl seedStep { instList := [], artifactList := [] } := by
      simp only [seedWorkLists, List.foldl_flatten]
      rfl
    rw [this, seedList_spec bs.flatten _ h (by intro i _; exact ⟨List.not_mem_nil _, List.not_mem_nil _⟩)]
    simp
  · exact ((List.filter_sublist _).map Instr.id).nodup h
  · exact ((List.filter_sublist _).map Instr.id).nodup h

theorem claim7_seeding_witness :
    (([[⟨1, Opcode.genericOther 0 false, []⟩, ⟨2, Opcode.gTrunc, [1]⟩],
       [⟨3, Opcode.targetOp 0 false, []⟩]] : List (List Instr)).flatten.map Instr.id).Nodup ∧
    seedWorkLists [[⟨1, Opcode.genericOther 0 false, []⟩, ⟨2, Opcode.gTrunc, [1]⟩],
       [⟨3, Opcode.targetOp 0 false, []⟩]] =
      { instList := [1], artifactList := [2] } := by
  refine ⟨by decide, ?_⟩
  have h := (claim7_seeding [[⟨1, Opcode.genericOther 0 false, []⟩, ⟨2, Opcode.gTrunc, [1]⟩],
       [⟨3, Opcode.targetOp 0 false, []⟩]] (by decide)).1
  rw [h]
  decide

end LegalizerPass

namespace LegalizerPass

/-! Step-branch characterization lemmas. -/

theorem step_primary_empty {L : Nat → List Instr → LegalizeResult × List Action}
    {C : Nat → List Instr → Option (List Action × List Nat)} {s : SchedState}
    (hphase : s.phase = .drainPrimary)
    (hpop : popBack s.wl.instList = none) :
    step L C s = .running { s with phase := .drainArtifacts } := by
  unfold step
  rw [hphase, hpop]

theorem step_primary_dead {L : Nat → List Instr → LegalizeResult × List Action}
    {C : Nat → List Instr → Option (List Action × List Nat)}
    {s : SchedState} {mi : Nat} {rest : List Nat}
    (hphase : s.phase = .drainPrimary)
    (hpop : popBack s.wl.instList = some (mi, rest))
    (hdead : isTriviallyDead s.prog mi = true) :
    step L C s = .running
      { s with wl := { s.wl with instList := rest },
               prog := progErase s.prog mi,
               log := s.log ++ [.poppedPrimary mi, .directErase mi] } := by
  unfold step
  rw [hphase, hpop]
  simp [hdead]

theorem step_primary_legalize_fail {L : Nat → List Instr → LegalizeResult × List Action}
    {C : Nat → List Instr → Option (List Action × List Nat)}
    {s : SchedState} {mi : Nat} {rest : List Nat} {acts : List Action}
    (hphase : s.phase = .drainPrimary)
    (hpop : popBack s.wl.instList = some (mi, rest))
    (hdead : isTriviallyDead s.prog mi = false)
    (hL : L mi s.prog = (.UnableToLegalize, acts)) :
    step L C s = .finished (.failedLegalize mi
      (let s2 := applyActions
        { s with wl := { s.wl with instList := rest },
                 log := s.log ++ [.poppedPrimary mi] } acts
       { s2 with log := s2.log ++ [.legalizeStep mi .UnableToLegalize],
                 observing := false,
                 diags := s2.diags ++ [⟨.unableToLegalize, some mi⟩] })) := by
  unfold step
  rw [hphase, hpop]
  simp [hdead, hL]

theorem step_primary_legalize_ok {L : Nat → List Instr → LegalizeResult × List Action}
    {C : Nat → List Instr → Option (List Action × List Nat)}
    {s : SchedState} {mi : Nat} {rest : List Nat} {res : LegalizeResult} {acts : List Action}
    (hphase : s.phase = .drainPrimary)
    (hpop : popBack s.wl.instList = some (mi, rest))
    (hdead : isTriviallyDead s.prog mi = false)
    (hL : L mi s.prog = (res, acts))
    (hres : res ≠ .UnableToLegalize) :
    step L C s = .running
      (let s2 := applyActions
        { s with wl := { s.wl with instList := rest },
                 log := s.log ++ [.poppedPrimary mi] } acts
       { s2 with log := s2.log ++ [.legalizeStep mi res],
                 changed := s2.changed || decide (res = .Legalized) }) := by
  unfold step
  rw [hphase, hpop]
  simp [hdead, hL, hres]

theorem step_artifact_empty_done {L : Nat → List Instr → LegalizeResult × List Action}
    {C : Nat → List Instr → Option (List Action × List Nat)} {s : SchedState}
    (hphase : s.phase = .drainArtifacts)
    (hpop : popBack s.wl.artifactList = none)
    (hinst : s.wl.instList = []) :
    step L C s = .running { s with phase := .postCheck } := by
  unfold step
  rw [hphase, hpop]
  simp [hinst]

theorem step_artifact_empty_loop {L : Nat → List Instr → LegalizeResult × List Action}
    {C : Nat → List Instr → Option (List Action × List Nat)} {s : SchedState}
    (hphase : s.phase = .drainArtifacts)
    (hpop : popBack s.wl.artifactList = none)
    (hinst : s.wl.instList ≠ []) :
    step L C s = .running { s with phase := .drainPrimary } := by
  unfold step
  rw [hphase, hpop]
  simp only [List.isEmpty_iff]
  rw [if_neg hinst]

theorem step_artifact_dead {L : Nat → List Instr → LegalizeResult × List Action}
    {C : Nat → List Instr → Option (List Action × List Nat)}
    {s : SchedState} {mi : Nat} {rest : List Nat}
    (hphase : s.phase = .drainArtifacts)
    (hpop : popBack s.wl.artifactList = some (mi, rest))
    (hdead : isTriviallyDead s.prog mi = true) :
    step L C s = .running
      { s with wl := erasingInstr mi { s.wl with artifactList := rest },
               prog := progErase s.prog mi,
               log := s.log ++ [.poppedArtifact mi, .mutErase mi] } := by
  unfold step
  rw [hphase, hpop]
  simp [hdead, deadListErase]

theorem step_artifact_combine_ok {L : Nat → List Instr → LegalizeResult × List Action}
    {C : Nat → List Instr → Option (List Action × List Nat)}
    {s : SchedState} {mi : Nat} {rest : List Nat} {acts : List Action} {ds : List Nat}
    (hphase : s.phase = .drainArtifacts)
    (hpop : popBack s.wl.artifactList = some (mi, rest))
    (hdead : isTriviallyDead s.prog mi = false)
    (hC : C mi s.prog = some (acts, ds)) :
    step L C s = .running
      (let s2 := applyActions
        { s with wl := { s.wl with artifactList := rest },
                 log := s.log ++ [.poppedArtifact mi] } acts
       { ds.foldl deadListErase
           { s2 with log := s2.log ++ [.combineStep mi true] } with changed := true }) := by
  unfold step
  rw [hphase, hpop]
  simp [hdead, hC]

theorem step_artifact_combine_fail {L : Nat → List Instr → LegalizeResult × List Action}
    {C : Nat → List Instr → Option (List Action × List Nat)}
    {s : SchedState} {mi : Nat} {rest : List Nat}
    (hphase : s.phase = .drainArtifacts)
    (hpop : popBack s.wl.artifactList = some (mi, rest))
    (hdead : isTriviallyDead s.prog mi = false)
    (hC : C mi s.prog = none) :
    step L C s = .running
      { s with wl := { instList := wlInsert s.wl.instList mi, artifactList := rest },
               log := s.log ++ [.poppedArtifact mi, .combineStep mi false] } := by
  unfold step
  rw [hphase, hpop]
  simp [hdead, hC]

theorem step_postCheck_ok {L : Nat → List Instr → LegalizeResult × List Action}
    {C : Nat → List Instr → Option (List Action × List Nat)} {s : SchedState}
    (hphase : s.phase = .postCheck)
    (hblocks : s.curBlocks = s.numBlocks) :
    step L C s = .finished (.success s.changed s) := by
  unfold step
  rw [hphase]
  simp [hblocks]

theorem step_postCheck_fail {L : Nat → List Instr → LegalizeResult × List Action}
    {C : Nat → List Instr → Option (List Action × List Nat)} {s : SchedState}
    (hphase : s.phase = .postCheck)
    (hblocks : s.curBlocks ≠ s.numBlocks) :
    step L C s = .finished (.failedBlocks
      { s with diags := s.diags ++ [⟨.insertingBlocksNotSupported, none⟩] }) := by
  unfold step
  rw [hphase]
  simp [hblocks]

end LegalizerPass

namespace LegalizerPass

/-! Event-log machinery: every graph mutation is recorded in the log, so a
run's final program is the replay of its log and the `Changed` flag can be
related to the logged driver/combiner outcomes. -/

/-- The log event recorded for an observer-routed mutation. -/
def actionEvent : Action → Event
  | .createInstr i => .mutCreate i
  | .changeInstr i op u => .mutChange i op u
  | .eraseInstr i => .mutErase i
  | .insertBlock => .blockInserted

/-- Events that set the `Changed` flag: a `Legalized` driver outcome or a
successful combine. -/
def isRewriteEvent : Event → Bool
  | .legalizeStep _ .Legalized => true
  | .combineStep _ true => true
  | _ => false

/-- Whether a log contains a rewrite event. -/
def logHasRewrite (l : List Event) : Bool := l.any isRewriteEvent

/-- The effect of one logged event on the program. -/
def applyEvent (p : List Instr) : Event → List Instr
  | .mutCreate ins => progCreate p ins
  | .mutChange i op u => progChange p i op u
  | .mutErase i => progErase p i
  | .directErase i => progErase p i
  | _ => p

/-- Replay a log over a program. -/
def replay (p : List Instr) (es : List Event) : List Instr := es.foldl applyEvent p

theorem replay_append (p : List Instr) (es fs : List Event) :
    replay p (es ++ fs) = replay (replay p es) fs :=
  List.foldl_append _ _ _ _

theorem replay_singleton (p : List Instr) (e : Event) :
    replay p [e] = applyEvent p e := rfl

theorem replay_cons (p : List Instr) (e : Event) (es : List Event) :
    replay p (e :: es) = replay (applyEvent p e) es := rfl

theorem replay_nil (p : List Instr) : replay p [] = p := rfl

theorem logHasRewrite_append (l l' : List Event) :
    logHasRewrite (l ++ l') = (logHasRewrite l || l'.any isRewriteEvent) :=
  List.any_append

theorem isRewriteEvent_actionEvent (a : Action) :
    isRewriteEvent (actionEvent a) = false := by
  cases a <;> rfl

theorem isRewriteEvent_legalize (i : Nat) (res : LegalizeResult) :
    isRewriteEvent (.legalizeStep i res) = decide (res = .Legalized) := by
  cases res <;> rfl

theorem applyAction_diags (s : SchedState) (a : Action) :
    (applyAction s a).diags = s.diags := by cases a <;> rfl

theorem applyAction_observing (s : SchedState) (a : Action) :
    (applyAction s a).observing = s.observing := by cases a <;> rfl

theorem applyAction_changed (s : SchedState) (a : Action) :
    (applyAction s a).changed = s.changed := by cases a <;> rfl

theorem applyAction_log (s : SchedState) (a : Action) :
    (applyAction s a).log = s.log ++ [actionEvent a] := by cases a <;> rfl

theorem applyAction_replay {p0 : List Instr} {s : SchedState}
    (hs : s.prog = replay p0 s.log) (a : Action) :
    (applyAction s a).prog = replay p0 (applyAction s a).log := by
  cases a <;>
    simp [applyAction, replay_append, replay_singleton, applyEvent, hs, actionEvent]

theorem applyActions_diags (as : List Action) :
    ∀ s : SchedState, (applyActions s as).diags = s.diags := by
  induction as with
  | nil => intro s; rfl
  | cons a tl ih =>
      intro s
      simp only [applyActions, List.foldl_cons]
      rw [show List.foldl applyAction (applyAction s a) tl = applyActions (applyAction s a) tl from rfl,
        ih, applyAction_diags]

theorem applyActions_observing (as : List Action) :
    ∀ s : SchedState, (applyActions s as).observing = s.observing := by
  induction as with
  | nil => intro s; rfl
  | cons a tl ih =>
      intro s
      simp only [applyActions, List.foldl_cons]
      rw [show List.foldl applyAction (applyAction s a) tl = applyActions (applyAction s a) tl from rfl,
        ih, applyAction_observing]

theorem applyActions_changed (as : List Action) :
    ∀ s : SchedState, (applyActions s as).changed = s.changed := by
  induction as with
  | nil => intro s; rfl
  | cons a tl ih =>
      intro s
      simp only [applyActions, List.foldl_cons]
      rw [show List.foldl applyAction (applyAction s a) tl = applyActions (applyAction s a) tl from rfl,
        ih, applyAction_changed]

theorem applyActions_log (as : List Action) :
    ∀ s : SchedState, (applyActions s as).log = s.log ++ as.map actionEvent := by
  induction as with
  | nil => intro s; simp [applyActions]
  | cons a tl ih =>
      intro s
      simp only [applyActions, List.foldl_cons]
      rw [show List.foldl applyAction (applyAction s a) tl = applyActions (applyAction s a) tl from rfl,
        ih, applyAction_log]
      simp

theorem applyActions_logHasRewrite (as : List Action) (s : SchedState) :
    logHasRewrite (applyActions s as).log = logHasRewrite s.log := by
  rw [applyActions_log, logHasRewrite_append]
  have : (as.map actionEvent).any isRewriteEvent = false := by
    induction as with
    | nil => rfl
    | cons a tl ih => simp [ih, isRewriteEvent_actionEvent]
  rw [this]
  simp

theorem applyActions_replay {p0 : List Instr} (as : List Action) :
    ∀ s : SchedState, s.prog = replay p0 s.log →
      (applyActions s as).prog = replay p0 (applyActions s as).log := by
  induction as with
  | nil => intro s hs; exact hs
  | cons a tl ih =>
      intro s hs
      simp only [applyActions, List.foldl_cons]
      exact ih (applyAction s a) (applyAction_replay hs a)

theorem deadListErase_diags (s : SchedState) (d : Nat) :
    (deadListErase s d).diags = s.diags := rfl

theorem deadListErase_observing (s : SchedState) (d : Nat) :
    (deadListErase s d).observing = s.observing := rfl

theorem deadListErase_changed (s : SchedState) (d : Nat) :
    (deadListErase s d).changed = s.changed := rfl

theorem foldl_dle_diags (ds : List Nat) :
    ∀ s : SchedState, (ds.foldl deadListErase s).diags = s.diags := by
  induction ds with
  | nil => intro s; rfl
  | cons d tl ih => intro s; rw [List.foldl_cons, ih, deadListErase_diags]

theorem foldl_dle_observing (ds : List Nat) :
    ∀ s : SchedState, (ds.foldl deadListErase s).observing = s.observing := by
  induction ds with
  | nil => intro s; rfl
  | cons d tl ih => intro s; rw [List.foldl_cons, ih, deadListErase_observing]

theorem foldl_dle_logHasRewrite (ds : List Nat) :
    ∀ s : SchedState, logHasRewrite (ds.foldl deadListErase s).log = logHasRewrite s.log := by
  induction ds with
  | nil => intro s; rfl
  | cons d tl ih =>
      intro s
      rw [List.foldl_cons, ih]
      simp [deadListErase, logHasRewrite_append, isRewriteEvent]

theorem foldl_dle_replay {p0 : List Instr} (ds : List Nat) :
    ∀ s : SchedState, s.prog = replay p0 s.log →
      (ds.foldl deadListErase s).prog = replay p0 (ds.foldl deadListErase s).log := by
  induction ds with
  | nil => intro s hs; exact hs
  | cons d tl ih =>
      intro s hs
      rw [List.foldl_cons]
      refine ih _ ?_
      simp [deadListErase, replay_append, replay_singleton, applyEvent, hs]

end LegalizerPass
namespace LegalizerPass

/-- Run invariant. -/
def GoodState (p0 : List Instr) (s : SchedState) : Prop :=
  s.diags = [] ∧ s.observing = true ∧ s.changed = logHasRewrite s.log ∧
  s.prog = replay p0 s.log

/-- Facts holding at each return site of a run started in a good state. -/
def GoodResult (p0 : List Instr) : RunResult → Prop
  | .failedLegalize x sf =>
      sf.observing = false ∧ sf.diags = [⟨.unableToLegalize, some x⟩] ∧
      sf.log.getLast? = some (.legalizeStep x .UnableToLegalize) ∧
      sf.prog = replay p0 sf.log
  | .failedBlocks sf =>
      sf.observing = true ∧ sf.diags = [⟨.insertingBlocksNotSupported, none⟩]
  | .success c sf =>
      c = logHasRewrite sf.log ∧ sf.diags = [] ∧ sf.observing = true ∧
      sf.prog = replay p0 sf.log

theorem step_good {L : Nat → List Instr → LegalizeResult × List Action}
    {C : Nat → List Instr → Option (List Action × List Nat)}
    {p0 : List Instr} {s s' : SchedState}
    (hg : GoodState p0 s) (h : step L C s = .running s') : GoodState p0 s' := by
  obtain ⟨hd, ho, hc, hp⟩ := hg
  cases hph : s.phase with
  | drainPrimary =>
      cases hpop : popBack s.wl.instList with
      | none =>
          rw [step_primary_empty hph hpop] at h
          cases h
          exact ⟨hd, ho, hc, hp⟩
      | some pr =>
          obtain ⟨mi, rest⟩ := pr
          cases hdead : isTriviallyDead s.prog mi with
          | true =>
              rw [step_primary_dead hph hpop hdead] at h
              cases h
              refine ⟨hd, ho, ?_, ?_⟩
              · simp [logHasRewrite_append, isRewriteEvent, hc]
              · simp [replay_append, replay_cons, replay_nil, applyEvent, hp]
          | false =>
              by_cases hres : (L mi s.prog).1 = .UnableToLegalize
              · have hL2 : L mi s.prog = (.UnableToLegalize, (L mi s.prog).2) := by
                  rw [← hres]
                rw [step_primary_legalize_fail hph hpop hdead hL2] at h
                cases h
              · have hL2 : L mi s.prog = ((L mi s.prog).1, (L mi s.prog).2) := rfl
                rw [step_primary_legalize_ok hph hpop hdead hL2 hres] at h
                cases h
                have hrep1 : s.prog = replay p0 (s.log ++ [Event.poppedPrimary mi]) := by
                  simp [replay_append, replay_cons, replay_nil, applyEvent, hp]
                have hrep2 := applyActions_replay (L mi s.prog).2
                  { s with wl := { s.wl with instList := rest },
                           log := s.log ++ [Event.poppedPrimary mi] } hrep1
                refine ⟨?_, ?_, ?_, ?_⟩
                · simp [applyActions_diags, hd]
                · simp [applyActions_observing, ho]
                · simp only [applyActions_changed, logHasRewrite_append,
                    applyActions_logHasRewrite, isRewriteEvent_legalize]
                  simp [logHasRewrite_append, isRewriteEvent, hc]
                  cases hq : (L mi s.prog).1 <;> rfl
                · simp [replay_append, replay_cons, replay_nil, applyEvent, hrep2]
  | drainArtifacts =>
      cases hpop : popBack s.wl.artifactList with
      | none =>
          by_cases hinst : s.wl.instList = []
          · rw [step_artifact_empty_done hph hpop hinst] at h
            cases h
            exact ⟨hd, ho, hc, hp⟩
          · rw [step_artifact_empty_loop hph hpop hinst] at h
            cases h
            exact ⟨hd, ho, hc, hp⟩
      | some pr =>
          obtain ⟨mi, rest⟩ := pr
          cases hdead : isTriviallyDead s.prog mi with
          | true =>
              rw [step_artifact_dead hph hpop hdead] at h
              cases h
              refine ⟨hd, ho, ?_, ?_⟩
              · simp [logHasRewrite_append, isRewriteEvent, hc]
              · simp [replay_append, replay_cons, replay_nil, applyEvent, hp]
          | false =>
              cases hC : C mi s.prog with
              | none =>
                  rw [step_artifact_combine_fail hph hpop hdead hC] at h
                  cases h
                  refine ⟨hd, ho, ?_, ?_⟩
                  · simp [logHasRewrite_append, isRewriteEvent, hc]
                  · simp [replay_append, replay_cons, replay_nil, applyEvent, hp]
              | some pr2 =>
                  obtain ⟨acts, ds⟩ := pr2
                  rw [step_artifact_combine_ok hph hpop hdead hC] at h
                  cases h
                  have hrep1 : s.prog = replay p0 (s.log ++ [Event.poppedArtifact mi]) := by
                    simp [replay_append, replay_cons, replay_nil, applyEvent, hp]
                  have hrep2 := applyActions_replay acts
                    { s with wl := { s.wl with artifactList := rest },
                             log := s.log ++ [Event.poppedArtifact mi] } hrep1
                  refine ⟨?_, ?_, ?_, ?_⟩
                  · simp [foldl_dle_diags, applyActions_diags, hd]
                  · simp [foldl_dle_observing, applyActions_observing, ho]
                  · simp only [foldl_dle_logHasRewrite, logHasRewrite_append]
                    simp [logHasRewrite_append, isRewriteEvent]
                  · refine foldl_dle_replay ds _ ?_
                    simp [replay_append, replay_cons, replay_nil, applyEvent, hrep2]
  | postCheck =>
      by_cases hb : s.curBlocks = s.numBlocks
      · rw [step_postCheck_ok hph hb] at h
        cases h
      · rw [step_postCheck_fail hph hb] at h
        cases h

end LegalizerPass
namespace LegalizerPass

theorem step_finished_good {L : Nat → List Instr → LegalizeResult × List Action}
    {C : Nat → List Instr → Option (List Action × List Nat)}
    {p0 : List Instr} {s : SchedState} {r : RunResult}
    (hg : GoodState p0 s) (h : step L C s = .finished r) : GoodResult p0 r := by
  obtain ⟨hd, ho, hc, hp⟩ := hg
  cases hph : s.phase with
  | drainPrimary =>
      cases hpop : popBack s.wl.instList with
      | none =>
          rw [step_primary_empty hph hpop] at h
          cases h
      | some pr =>
          obtain ⟨mi, rest⟩ := pr
          cases hdead : isTriviallyDead s.prog mi with
          | true =>
              rw [step_primary_dead hph hpop hdead] at h
              cases h
          | false =>
              by_cases hres : (L mi s.prog).1 = .UnableToLegalize
              · have hL2 : L mi s.prog = (.UnableToLegalize, (L mi s.prog).2) := by
                  rw [← hres]
                rw [step_primary_legalize_fail hph hpop hdead hL2] at h
                cases h
                have hrep1 : s.prog = replay p0 (s.log ++ [Event.poppedPrimary mi]) := by
                  simp [replay_append, replay_cons, replay_nil, applyEvent, hp]
                have hrep2 := applyActions_replay (L mi s.prog).2
                  { s with wl := { s.wl with instList := rest },
                           log := s.log ++ [Event.poppedPrimary mi] } hrep1
                refine ⟨rfl, ?_, ?_, ?_⟩
                · simp [applyActions_diags, hd]
                · simp [List.getLast?_concat]
                · simp [replay_append, replay_cons, replay_nil, applyEvent, hrep2]
              · have hL2 : L mi s.prog = ((L mi s.prog).1, (L mi s.prog).2) := rfl
                rw [step_primary_legalize_ok hph hpop hdead hL2 hres] at h
                cases h
  | drainArtifacts =>
      cases hpop : popBack s.wl.artifactList with
      | none =>
          by_cases hinst : s.wl.instList = []
          · rw [step_artifact_empty_done hph hpop hinst] at h
            cases h
          · rw [step_artifact_empty_loop hph hpop hinst] at h
            cases h
      | some pr =>
          obtain ⟨mi, rest⟩ := pr
          cases hdead : isTriviallyDead s.prog mi with
          | true =>
              rw [step_artifact_dead hph hpop hdead] at h
              cases h
          | false =>
              cases hC : C mi s.prog with
              | none =>
                  rw [step_artifact_combine_fail hph hpop hdead hC] at h
                  cases h
              | some pr2 =>
                  obtain ⟨acts, ds⟩ := pr2
                  rw [step_artifact_combine_ok hph hpop hdead hC] at h
                  cases h
  | postCheck =>
      by_cases hb : s.curBlocks = s.numBlocks
      · rw [step_postCheck_ok hph hb] at h
        cases h
        exact ⟨hc, hd, ho, hp⟩
      · rw [step_postCheck_fail hph hb] at h
        cases h
        exact ⟨ho, by simp [hd]⟩

theorem steps_good {L : Nat → List Instr → LegalizeResult × List Action}
    {C : Nat → List Instr → Option (List Action × List Nat)} {p0 : List Instr} :
    ∀ (n : Nat) (s : SchedState) (r : RunResult),
      GoodState p0 s → steps L C n s = .finished r → GoodResult p0 r := by
  intro n
  induction n with
  | zero => intro s r _ h; cases h
  | succ m ih =>
      intro s r hg h
      simp only [steps] at h
      cases hs : step L C s with
      | running s' =>
          rw [hs] at h
          exact ih s' r (step_good hg hs) h
      | finished r' =>
          rw [hs] at h
          cases h
          exact step_finished_good hg hs

theorem initState_good (bs : List (List Instr)) :
    GoodState (initState bs).prog (initState bs) :=
  ⟨rfl, rfl, rfl, rfl⟩

theorem run_good {L : Nat → List Instr → LegalizeResult × List Action}
    {C : Nat → List Instr → Option (List Action × List Nat)}
    {n : Nat} {bs : List (List Instr)} {r : RunResult}
    (h : steps L C n (initState bs) = .finished r) :
    GoodResult (initState bs).prog r :=
  steps_good n (initState bs) r (initState_good bs) h

end LegalizerPass
namespace LegalizerPass

/-! Projections used to state concrete run facts. -/

/-- The final state carried by a run result. -/
def stateOf : RunResult → SchedState
  | .success _ s => s
  | .failedLegalize _ s => s
  | .failedBlocks s => s

/-- The state reached by a possibly unfinished run. -/
def finalState : StepOut → SchedState
  | .running s => s
  | .finished r => stateOf r

/-- The value the pass entry point returns, when the run finished. -/
def runRet : StepOut → Option Bool
  | .running _ => none
  | .finished r => some (retVal r)

/-- Whether the run finished by the `UnableToLegalize` return site on the
given instruction. -/
def isFailedLegalizeOn (o : StepOut) (x : Nat) : Bool :=
  match o with
  | .finished (.failedLegalize y _) => y == x
  | _ => false

/-- Whether the run finished by the block-count return site. -/
def isFailedBlocks : StepOut → Bool
  | .finished (.failedBlocks _) => true
  | _ => false

/-- A pre-ISel generic, non-artifact opcode with side effects (so the
instruction is never trivially dead). -/
def sideOp : Opcode := .genericOther 0 true

/-- Concrete function for the C1 counterexample run: two side-effecting
ordinary instructions in one block. -/
def cxBlocks1 : List (List Instr) := [[⟨1, sideOp, []⟩, ⟨2, sideOp, []⟩]]

/-- Concrete driver for the C1 counterexample run: instruction 2 (popped
first) legalizes, instruction 1 cannot be legalized. -/
def cxLegalize1 : Nat → List Instr → LegalizeResult × List Action := fun i _ =>
  if i = 2 then (.Legalized, []) else (.UnableToLegalize, [])

/-- A combiner that always fails (performs nothing). -/
def noCombine : Nat → List Instr → Option (List Action × List Nat) := fun _ _ => none

/-- The final state of the C1 counterexample run. -/
def cxFail1State : SchedState :=
  finalState (steps cxLegalize1 noCombine 2 (initState cxBlocks1))

/-- C1 counterexample: a run in which instruction 2 is reported `Legalized`
and then instruction 1 fails with `UnableToLegalize` returns `false`, not
`true` — the returned flag does not reflect the prior successful rewrite,
contrary to the claim. -/
theorem claim1_counterexample :
    isFailedLegalizeOn (steps cxLegalize1 noCombine 2 (initState cxBlocks1)) 1 = true ∧
    Event.legalizeStep 2 .Legalized ∈
      (finalState (steps cxLegalize1 noCombine 2 (initState cxBlocks1))).log ∧
    runRet (steps cxLegalize1 noCombine 2 (initState cxBlocks1)) = some false := by
  refine ⟨by rfl, ?_, by rfl⟩
  have h : ((finalState (steps cxLegalize1 noCombine 2 (initState cxBlocks1))).log.contains
      (Event.legalizeStep 2 .Legalized)) = true := by rfl
  simpa [List.contains, List.elem_iff] using h

/-- C1 (amended): when the driver reports `UnableToLegalize` for X, the
pass returns `false` regardless of prior successful rewrites, and no
instruction after X is processed or rewritten — the failing legalization
of X is the final event of the run's log. -/
theorem claim1_amended {L : Nat → List Instr → LegalizeResult × List Action}
    {C : Nat → List Instr → Option (List Action × List Nat)}
    {n : Nat} {bs : List (List Instr)} {x : Nat} {sf : SchedState}
    (h : steps L C n (initState bs) = .finished (.failedLegalize x sf)) :
    retVal (.failedLegalize x sf) = false ∧
    sf.log.getLast? = some (.legalizeStep x .UnableToLegalize) := by
  have hg := run_good h
  exact ⟨rfl, hg.2.2.1⟩

theorem claim1_amended_witness :
    retVal (.failedLegalize 1 cxFail1State) = false ∧
    cxFail1State.log.getLast? = some (.legalizeStep 1 .UnableToLegalize) :=
  @claim1_amended cxLegalize1 noCombine 2 cxBlocks1 1 cxFail1State rfl

/-- C2: when an instruction X dequeued from the primary queue cannot be
legalized, the pass stops immediately (the failing legalization of X is the
last event of the run), emits exactly one diagnostic identifying X, returns
`false` to the caller without retrying, and does not roll back: the final
program is exactly the replay of every mutation applied during the run. -/
theorem claim2_fatal_stop {L : Nat → List Instr → LegalizeResult × List Action}
    {C : Nat → List Instr → Option (List Action × List Nat)}
    {n : Nat} {bs : List (List Instr)} {x : Nat} {sf : SchedState}
    (h : steps L C n (initState bs) = .finished (.failedLegalize x sf)) :
    retVal (.failedLegalize x sf) = false ∧
    sf.diags = [⟨.unableToLegalize, some x⟩] ∧
    sf.log.getLast? = some (.legalizeStep x .UnableToLegalize) ∧
    sf.prog = replay (initState bs).prog sf.log := by
  have hg := run_good h
  exact ⟨rfl, hg.2.1, hg.2.2.1, hg.2.2.2⟩

theorem claim2_fatal_stop_witness :
    retVal (.failedLegalize 1 cxFail1State) = false ∧
    cxFail1State.diags = [⟨.unableToLegalize, some 1⟩] ∧
    cxFail1State.log.getLast? = some (.legalizeStep 1 .UnableToLegalize) ∧
    cxFail1State.prog = replay (initState cxBlocks1).prog cxFail1State.log :=
  @claim2_fatal_stop cxLegalize1 noCombine 2 cxBlocks1 1 cxFail1State rfl

/-- Concrete function for the C4 counterexample run: one side-effecting
instruction whose legalization inserts a basic block. -/
def cxBlocks4 : List (List Instr) := [[⟨1, sideOp, []⟩]]

/-- Concrete driver for the C4 counterexample run. -/
def cxLegalize4 : Nat → List Instr → LegalizeResult × List Action := fun _ _ =>
  (.Legalized, [.insertBlock])

/-- C4 counterexample: on the changed-block-count failure path the
diagnostic is emitted while the observer is still attached (`observing`
still `true`), so not every failure path stops observation before
reporting. -/
theorem claim4_counterexample :
    isFailedBlocks (steps cxLegalize4 noCombine 4 (initState cxBlocks4)) = true ∧
    (finalState (steps cxLegalize4 noCombine 4 (initState cxBlocks4))).diags =
      [⟨.insertingBlocksNotSupported, none⟩] ∧
    (finalState (steps cxLegalize4 noCombine 4 (initState cxBlocks4))).observing = true := by
  exact ⟨by rfl, by rfl, by rfl⟩

/-- C4 (amended): on the `UnableToLegalize` failure path observation is
stopped before the diagnostic is emitted, but on the changed-block-count
failure path the diagnostic is emitted without stopping observation. -/
theorem claim4_amended {L : Nat → List Instr → LegalizeResult × List Action}
    {C : Nat → List Instr → Option (List Action × List Nat)}
    {n : Nat} {bs : List (List Instr)} {r : RunResult}
    (h : steps L C n (initState bs) = .finished r) :
    (∀ x sf, r = .failedLegalize x sf → sf.observing = false) ∧
    (∀ sf, r = .failedBlocks sf → sf.observing = true) := by
  have hg := run_good h
  constructor
  · rintro x sf rfl
    exact hg.1
  · rintro sf rfl
    exact hg.1

theorem claim4_amended_witness : cxFail1State.observing = false :=
  (@claim4_amended cxLegalize1 noCombine 2 cxBlocks1
    (.failedLegalize 1 cxFail1State) rfl).1 1 cxFail1State rfl

theorem isRewriteEvent_iff (e : Event) :
    isRewriteEvent e = true ↔
      ((∃ i, e = .legalizeStep i .Legalized) ∨ (∃ i, e = .combineStep i true)) := by
  cases e with
  | legalizeStep i res => cases res <;> simp [isRewriteEvent]
  | combineStep i ok => cases ok <;> simp [isRewriteEvent]
  | poppedPrimary i => simp [isRewriteEvent]
  | poppedArtifact i => simp [isRewriteEvent]
  | mutCreate ins => simp [isRewriteEvent]
  | mutChange i op u => simp [isRewriteEvent]
  | mutErase i => simp [isRewriteEvent]
  | directErase i => simp [isRewriteEvent]
  | blockInserted => simp [isRewriteEvent]

/-- C10: on a successful (non-failing) run the returned flag is `true` iff
some instruction was reported `Legalized` by the driver or some artifact
combination succeeded; dead-instruction erasures do not set it, so a run
whose only effect is erasing dead code returns `false`. -/
theorem claim10_changed_flag {L : Nat → List Instr → LegalizeResult × List Action}
    {C : Nat → List Instr → Option (List Action × List Nat)}
    {n : Nat} {bs : List (List Instr)} {c : Bool} {sf : SchedState}
    (h : steps L C n (initState bs) = .finished (.success c sf)) :
    c = true ↔
      ((∃ i, Event.legalizeStep i .Legalized ∈ sf.log) ∨
       (∃ i, Event.combineStep i true ∈ sf.log)) := by
  have hg := run_good h
  rw [(hg.1 : c = logHasRewrite sf.log)]
  rw [show (logHasRewrite sf.log = true) = (sf.log.any isRewriteEvent = true) from rfl,
    List.any_eq_true]
  constructor
  · rintro ⟨e, he, hre⟩
    rcases (isRewriteEvent_iff e).mp hre with ⟨i, rfl⟩ | ⟨i, rfl⟩
    · exact Or.inl ⟨i, he⟩
    · exact Or.inr ⟨i, he⟩
  · rintro (⟨i, hi⟩ | ⟨i, hi⟩)
    · exact ⟨_, hi, by simp [isRewriteEvent]⟩
    · exact ⟨_, hi, by simp [isRewriteEvent]⟩

/-- Concrete function for the C10 witness run: one dead ordinary
instruction, which is erased; the run mutates the program but returns
`false`. -/
def cxBlocks10 : List (List Instr) := [[⟨3, .genericOther 0 false, []⟩]]

/-- A driver reporting everything already legal without mutations. -/
def alreadyLegalDriver : Nat → List Instr → LegalizeResult × List Action := fun _ _ =>
  (.AlreadyLegal, [])

/-- The final state of the C10 witness run. -/
def c10State : SchedState :=
  finalState (steps alreadyLegalDriver noCombine 4 (initState cxBlocks10))

theorem claim10_changed_flag_witness :
    (false = true ↔
      ((∃ i, Event.legalizeStep i .Legalized ∈ c10State.log) ∨
       (∃ i, Event.combineStep i true ∈ c10State.log))) ∧
    c10State.prog ≠ (initState cxBlocks10).prog :=
  ⟨@claim10_changed_flag alreadyLegalDriver noCombine 4 cxBlocks10 false c10State rfl,
    fun h => by
      have h2 := congrArg List.length h
      rw [show c10State.prog.length = 0 from rfl,
          show (initState cxBlocks10).prog.length = 1 from rfl] at h2
      exact absurd h2 (by decide)⟩

end LegalizerPass
namespace LegalizerPass

theorem mem_progErase {p : List Instr} {i : Nat} {j : Instr}
    (h : j ∈ progErase p i) : j.id ≠ i := by
  simp only [progErase, List.mem_filter, bne_iff_ne, ne_eq] at h
  exact h.2

theorem mem_of_mem_progErase {p : List Instr} {i : Nat} {j : Instr}
    (h : j ∈ progErase p i) : j ∈ p := by
  simp only [progErase, List.mem_filter] at h
  exact h.1

/-- The four facts recording that `d` has been fully erased: absent from
both worklists, absent from the program, and its observer-routed erasure
logged. -/
def ErasedFacts (d : Nat) (s : SchedState) : Prop :=
  d ∉ s.wl.instList ∧ d ∉ s.wl.artifactList ∧
  (∀ j ∈ s.prog, j.id ≠ d) ∧ Event.mutErase d ∈ s.log

theorem dle_establish (s : SchedState) (d : Nat) : ErasedFacts d (deadListErase s d) := by
  refine ⟨not_mem_wlRemove, not_mem_wlRemove, ?_, ?_⟩
  · intro j hj
    exact mem_progErase hj
  · simp [deadListErase]

theorem dle_preserve {s : SchedState} {d : Nat} (h : ErasedFacts d s) (x : Nat) :
    ErasedFacts d (deadListErase s x) := by
  obtain ⟨h1, h2, h3, h4⟩ := h
  refine ⟨?_, ?_, ?_, ?_⟩
  · intro hmem
    exact h1 (mem_wlRemove.mp hmem).1
  · intro hmem
    exact h2 (mem_wlRemove.mp hmem).1
  · intro j hj
    exact h3 j (mem_of_mem_progErase hj)
  · simp [deadListErase, h4]

theorem foldl_dle_preserve (tl : List Nat) :
    ∀ {s : SchedState} {d : Nat}, ErasedFacts d s →
      ErasedFacts d (tl.foldl deadListErase s) := by
  induction tl with
  | nil => intro s d h; exact h
  | cons a tl2 ih =>
      intro s d h
      rw [List.foldl_cons]
      exact ih (dle_preserve h a)

theorem foldl_dle_mem (ds : List Nat) :
    ∀ {s : SchedState} {d : Nat}, d ∈ ds → ErasedFacts d (ds.foldl deadListErase s) := by
  induction ds with
  | nil => intro s d h; cases h
  | cons a tl ih =>
      intro s d h
      rw [List.foldl_cons]
      rcases List.mem_cons.mp h with rfl | h'
      · exact foldl_dle_preserve tl (dle_establish s d)
      · exact ih h'

/-- A concrete pre-ISel generic ordinary opcode without side effects. -/
def cxOrd : Opcode := .genericOther 0 false

/-- Concrete function for the C3 counterexample: instruction 1 (ordinary,
no side effects) is used by instruction 2 (side-effecting). -/
def cxBlocks3 : List (List Instr) := [[⟨1, cxOrd, []⟩, ⟨2, .genericOther 1 true, [1]⟩]]

/-- Concrete driver for the C3 counterexample: legalizing 2 erases 2 and
rewrites 1 into `G_TRUNC`, whose changed notification inserts 1 into the
artifact list while it is still in the primary list. -/
def cxLegalize3 : Nat → List Instr → LegalizeResult × List Action := fun i _ =>
  if i = 2 then (.Legalized, [.eraseInstr 2, .changeInstr 1 .gTrunc []])
  else (.AlreadyLegal, [])

/-- C3 counterexample: after two steps of this run, instruction 1 has been
erased from the program by the primary drain loop's direct erasure — logged
as `directErase`, not routed through the observer's erasing notification —
yet the artifact worklist still holds it.  So not every erasure routes
through the observer, and a worklist can hold an erased instruction. -/
theorem claim3_counterexample :
    (finalState (steps cxLegalize3 noCombine 2 (initState cxBlocks3))).wl.artifactList = [1] ∧
    (finalState (steps cxLegalize3 noCombine 2 (initState cxBlocks3))).prog = [] ∧
    (finalState (steps cxLegalize3 noCombine 2 (initState cxBlocks3))).log.contains
      (Event.directErase 1) = true :=
  ⟨rfl, rfl, rfl⟩

/-- C3 (amended): erasures in the artifact drain loop route through the
observer's erasing notification, which removes the instruction from both
worklists; but the primary drain loop erases a dead instruction directly,
without the erasing notification, leaving the artifact worklist untouched
(so it may keep holding the erased instruction). -/
theorem claim3_amended {L : Nat → List Instr → LegalizeResult × List Action}
    {C : Nat → List Instr → Option (List Action × List Nat)}
    {s : SchedState} {mi : Nat} {rest : List Nat} :
    (s.phase = .drainPrimary → popBack s.wl.instList = some (mi, rest) →
      isTriviallyDead s.prog mi = true →
      step L C s = .running
        { s with wl := { s.wl with instList := rest },
                 prog := progErase s.prog mi,
                 log := s.log ++ [.poppedPrimary mi, .directErase mi] }) ∧
    (s.phase = .drainArtifacts → popBack s.wl.artifactList = some (mi, rest) →
      isTriviallyDead s.prog mi = true →
      step L C s = .running
        { s with wl := { instList := wlRemove s.wl.instList mi,
                         artifactList := wlRemove rest mi },
                 prog := progErase s.prog mi,
                 log := s.log ++ [.poppedArtifact mi, .mutErase mi] }) := by
  constructor
  · intro h1 h2 h3
    exact step_primary_dead h1 h2 h3
  · intro h1 h2 h3
    rw [step_artifact_dead h1 h2 h3]
    rfl

/-- A concrete state about to pop a dead ordinary instruction from the
primary list. -/
def c3StateA : SchedState :=
  { prog := [⟨7, cxOrd, []⟩], wl := { instList := [7], artifactList := [] },
    changed := false, numBlocks := 1, curBlocks := 1, observing := true,
    phase := .drainPrimary, log := [], diags := [] }

/-- A concrete state about to pop a dead artifact from the artifact list
while the primary list also holds it. -/
def c3StateB : SchedState :=
  { prog := [⟨7, .gTrunc, []⟩], wl := { instList := [7], artifactList := [7] },
    changed := false, numBlocks := 1, curBlocks := 1, observing := true,
    phase := .drainArtifacts, log := [], diags := [] }

theorem claim3_amended_witness :
    step alreadyLegalDriver noCombine c3StateA = .running
      { c3StateA with wl := { c3StateA.wl with instList := [] },
                      prog := progErase c3StateA.prog 7,
                      log := c3StateA.log ++ [.poppedPrimary 7, .directErase 7] } ∧
    step alreadyLegalDriver noCombine c3StateB = .running
      { c3StateB with wl := { instList := wlRemove c3StateB.wl.instList 7,
                              artifactList := wlRemove [] 7 },
                      prog := progErase c3StateB.prog 7,
                      log := c3StateB.log ++ [.poppedArtifact 7, .mutErase 7] } :=
  ⟨(claim3_amended).1 rfl rfl rfl, (claim3_amended).2 rfl rfl rfl⟩

/-- C8: for a non-dead instruction popped from the artifact list — if the
combiner succeeds, every instruction of the reported dead list is erased
through the observer's erase path (removed from whichever worklist still
references it, erased from the program, the observer notification logged)
and the `Changed` flag is set; if the combiner fails, the instruction is
re-inserted into the primary list (and is gone from the artifact list), the
program is untouched and `Changed` is unchanged. -/
theorem claim8_artifact_combine {L : Nat → List Instr → LegalizeResult × List Action}
    {C : Nat → List Instr → Option (List Action × List Nat)}
    {s : SchedState} {mi : Nat} {rest : List Nat}
    (hphase : s.phase = .drainArtifacts)
    (hpop : popBack s.wl.artifactList = some (mi, rest))
    (hdead : isTriviallyDead s.prog mi = false) :
    (∀ acts ds, C mi s.prog = some (acts, ds) →
      ∃ s', step L C s = .running s' ∧ s'.changed = true ∧
        ∀ d ∈ ds, d ∉ s'.wl.instList ∧ d ∉ s'.wl.artifactList ∧
          (∀ j ∈ s'.prog, j.id ≠ d) ∧ Event.mutErase d ∈ s'.log) ∧
    (C mi s.prog = none →
      step L C s = .running
        { s with wl := { instList := wlInsert s.wl.instList mi, artifactList := rest },
                 log := s.log ++ [.poppedArtifact mi, .combineStep mi false] }) := by
  constructor
  · intro acts ds hC
    rw [step_artifact_combine_ok hphase hpop hdead hC]
    refine ⟨_, rfl, rfl, ?_⟩
    intro d hd
    exact foldl_dle_mem ds hd
  · intro hC
    exact step_artifact_combine_fail hphase hpop hdead hC

/-- A concrete combiner succeeding on instruction 9 with dead list [9, 4]. -/
def c8Combine : Nat → List Instr → Option (List Action × List Nat) := fun i _ =>
  if i = 9 then some ([], [9, 4]) else none

/-- A concrete state about to pop the live artifact 9. -/
def c8State : SchedState :=
  { prog := [⟨4, .gTrunc, []⟩, ⟨9, .gTrunc, [4]⟩, ⟨11, .genericOther 2 true, [9]⟩],
    wl := { instList := [11], artifactList := [4, 9] },
    changed := false, numBlocks := 1, curBlocks := 1, observing := true,
    phase := .drainArtifacts, log := [], diags := [] }

theorem claim8_artifact_combine_witness :
    (∃ s', step alreadyLegalDriver c8Combine c8State = .running s' ∧ s'.changed = true ∧
        ∀ d ∈ [9, 4], d ∉ s'.wl.instList ∧ d ∉ s'.wl.artifactList ∧
          (∀ j ∈ s'.prog, j.id ≠ d) ∧ Event.mutErase d ∈ s'.log) ∧
    step alreadyLegalDriver noCombine c8State = .running
      { c8State with wl := { instList := wlInsert c8State.wl.instList 9, artifactList := [4] },
                     log := c8State.log ++ [.poppedArtifact 9, .combineStep 9 false] } :=
  ⟨(@claim8_artifact_combine alreadyLegalDriver c8Combine
      c8State 9 [4] rfl rfl rfl).1 [] [9, 4] rfl,
   (@claim8_artifact_combine alreadyLegalDriver noCombine
      c8State 9 [4] rfl rfl rfl).2 rfl⟩

/-- Whether a run finished by the normal (success) return site. -/
def isSuccess : StepOut → Bool
  | .finished (.success _ _) => true
  | _ => false

/-- Concrete function for the C9 counterexample: a single target-specific
instruction with zero uses and no side effects. -/
def cxBlocks9 : List (List Instr) := [[⟨5, .targetOp 0 false, []⟩]]

/-- C9 counterexample: a target-specific instruction with zero uses and no
side effect never enters a worklist, so it survives a successful run —
after the run it is still in the program, contradicting the unrestricted
dead-code-elimination half of the claim. -/
theorem claim9_counterexample :
    isTriviallyDead (initState cxBlocks9).prog 5 = true ∧
    isSuccess (steps alreadyLegalDriver noCombine 3 (initState cxBlocks9)) = true ∧
    (finalState (steps alreadyLegalDriver noCombine 3 (initState cxBlocks9))).prog =
      [⟨5, .targetOp 0 false, []⟩] :=
  ⟨rfl, rfl, rfl⟩

/-- C9 (amended): every instruction popped from either queue that is
trivially dead is erased from the program at once, with no legalization or
combination attempted on it (the only events recorded are the pop and the
erasure); but an instruction that never enters a worklist — a non-eligible,
target-specific one — is never dead-code-eliminated even when it has zero
uses and no side effect. -/
theorem claim9_dead_pop {L : Nat → List Instr → LegalizeResult × List Action}
    {C : Nat → List Instr → Option (List Action × List Nat)}
    {s : SchedState} {mi : Nat} {rest : List Nat} :
    (s.phase = .drainPrimary → popBack s.wl.instList = some (mi, rest) →
      isTriviallyDead s.prog mi = true →
      ∃ s', step L C s = .running s' ∧ (∀ j ∈ s'.prog, j.id ≠ mi) ∧
        s'.log = s.log ++ [.poppedPrimary mi, .directErase mi]) ∧
    (s.phase = .drainArtifacts → popBack s.wl.artifactList = some (mi, rest) →
      isTriviallyDead s.prog mi = true →
      ∃ s', step L C s = .running s' ∧ (∀ j ∈ s'.prog, j.id ≠ mi) ∧
        s'.log = s.log ++ [.poppedArtifact mi, .mutErase mi]) := by
  constructor
  · intro h1 h2 h3
    rw [step_primary_dead h1 h2 h3]
    exact ⟨_, rfl, fun j hj => mem_progErase hj, rfl⟩
  · intro h1 h2 h3
    rw [step_artifact_dead h1 h2 h3]
    exact ⟨_, rfl, fun j hj => mem_progErase hj, rfl⟩

theorem claim9_dead_pop_witness :
    (∃ s', step alreadyLegalDriver noCombine c3StateA = .running s' ∧
        (∀ j ∈ s'.prog, j.id ≠ 7) ∧
        s'.log = c3StateA.log ++ [.poppedPrimary 7, .directErase 7]) ∧
    (∃ s', step alreadyLegalDriver noCombine c3StateB = .running s' ∧
        (∀ j ∈ s'.prog, j.id ≠ 7) ∧
        s'.log = c3StateB.log ++ [.poppedArtifact 7, .mutErase 7]) :=
  ⟨(claim9_dead_pop).1 rfl rfl rfl, (claim9_dead_pop).2 rfl rfl rfl⟩

end LegalizerPass
namespace LegalizerPass

/-! Claim C5: the looping-driver counterexample. -/

/-- The looping driver for the C5 counterexample: it "legalizes" an
instruction by re-marking it changed — a graph mutation routed through the
observer, allowed by the stated interface contracts — so the changed
notification re-inserts the instruction into the primary list every time. -/
def loopDriver : Nat → List Instr → LegalizeResult × List Action := fun _ _ =>
  (.Legalized, [.changeInstr 1 sideOp []])

/-- Concrete function for the C5 counterexample: one side-effecting
ordinary instruction. -/
def cxBlocks5 : List (List Instr) := [[⟨1, sideOp, []⟩]]

/-- The loop invariant of the C5 counterexample run: the state core comes
back to itself after every step. -/
def c5Loop (s : SchedState) : Prop :=
  s.phase = .drainPrimary ∧ s.wl.instList = [1] ∧ s.wl.artifactList = [] ∧
  s.prog = [⟨1, sideOp, []⟩]

/-- The fixpoint loop never finishes on the C5 counterexample run. -/
def c5RunsForever : Prop :=
  ∀ n : Nat, ∃ s, steps loopDriver noCombine n (initState cxBlocks5) = .running s

theorem c5_step {s : SchedState} (h : c5Loop s) :
    ∃ s', step loopDriver noCombine s = .running s' ∧ c5Loop s' := by
  obtain ⟨h1, h2, h3, h4⟩ := h
  refine ⟨_, step_primary_legalize_ok h1 (by rw [h2]; rfl) (by rw [h4]; rfl) rfl
    (by simp [loopDriver]), ?_, ?_, ?_, ?_⟩
  · simp [applyActions, applyAction, h1]
  · simp [applyActions, applyAction, changedInstr, changingInstr, createdInstr,
      isPreISelGenericOpcode, isArtifact, wlInsert, sideOp]
  · simp [applyActions, applyAction, changedInstr, changingInstr, createdInstr,
      isPreISelGenericOpcode, isArtifact, wlInsert, sideOp, h3]
  · simp [applyActions, applyAction, progChange, h4, sideOp]

theorem c5_never (n : Nat) :
    ∀ s, c5Loop s → ∃ s', steps loopDriver noCombine n s = .running s' ∧ c5Loop s' := by
  induction n with
  | zero => intro s h; exact ⟨s, rfl, h⟩
  | succ m ih =>
      intro s h
      obtain ⟨s1, hs1, hloop1⟩ := c5_step h
      simp only [steps]
      rw [hs1]
      exact ih s1 hloop1

/-- C5 counterexample: with the looping driver — which satisfies the stated
interface contracts (it is a total function whose mutation routes through
the change observer) — the outer loop never terminates: every step pops
instruction 1 and the changed notification puts it straight back. -/
theorem claim5_counterexample : c5RunsForever := by
  intro n
  obtain ⟨s', hs', _⟩ := c5_never n (initState cxBlocks5) ⟨rfl, rfl, rfl, rfl⟩
  exact ⟨s', hs'⟩

end LegalizerPass
namespace LegalizerPass

/-! Claim C5 (amended): termination when the collaborators enqueue no new
work. -/

/-- Whether an observer-routed mutation can enqueue an instruction into a
worklist (a created/changed notification with an eligible opcode). -/
def Action.mayEnqueue : Action → Bool
  | .createInstr i => isPreISelGenericOpcode i.opcode
  | .changeInstr _ op _ => isPreISelGenericOpcode op
  | .eraseInstr _ => false
  | .insertBlock => false

/-- The termination measure: a queued primary instruction counts 1, a
queued artifact 2 (a failed combine moves an artifact to the primary
list, which costs 1). -/
def wlMeasure (w : WorkLists) : Nat := w.instList.length + 2 * w.artifactList.length

/-- The run from `s` reaches one of the three return sites in finitely many
steps. -/
def Terminates (L : Nat → List Instr → LegalizeResult × List Action)
    (C : Nat → List Instr → Option (List Action × List Nat))
    (s : SchedState) : Prop :=
  ∃ n r, steps L C n s = .finished r

theorem terminates_of_finished {L : Nat → List Instr → LegalizeResult × List Action}
    {C : Nat → List Instr → Option (List Action × List Nat)}
    {s : SchedState} {r : RunResult}
    (h : step L C s = .finished r) : Terminates L C s :=
  ⟨1, r, by simp only [steps]; rw [h]⟩

theorem terminates_of_running {L : Nat → List Instr → LegalizeResult × List Action}
    {C : Nat → List Instr → Option (List Action × List Nat)}
    {s s' : SchedState}
    (h : step L C s = .running s') (ht : Terminates L C s') : Terminates L C s := by
  obtain ⟨n, r, hn⟩ := ht
  exact ⟨n + 1, r, by simp only [steps]; rw [h]; exact hn⟩

theorem popBack_eq_none {l : List Nat} (h : popBack l = none) : l = [] := by
  cases hl : l.getLast? with
  | some x => simp [popBack, hl] at h
  | none => exact List.getLast?_eq_none_iff.mp hl

theorem erasingInstr_wlMeasure (i : Nat) (w : WorkLists) :
    wlMeasure (erasingInstr i w) ≤ wlMeasure w :=
  Nat.add_le_add (wlRemove_length_le _ _)
    (Nat.mul_le_mul_left 2 (wlRemove_length_le _ _))

theorem applyAction_wlMeasure {s : SchedState} {a : Action}
    (ha : a.mayEnqueue = false) :
    wlMeasure (applyAction s a).wl ≤ wlMeasure s.wl := by
  cases a with
  | createInstr i =>
      simp only [Action.mayEnqueue] at ha
      simp [applyAction, createdInstr, ha]
  | changeInstr i op u =>
      simp only [Action.mayEnqueue] at ha
      simp [applyAction, changedInstr, changingInstr, createdInstr, ha]
  | eraseInstr i =>
      exact erasingInstr_wlMeasure i s.wl
  | insertBlock => exact Nat.le_refl _

theorem applyActions_wlMeasure {as : List Action}
    (has : ∀ a ∈ as, a.mayEnqueue = false) :
    ∀ s : SchedState, wlMeasure (applyActions s as).wl ≤ wlMeasure s.wl := by
  induction as with
  | nil => intro s; exact Nat.le_refl _
  | cons a tl ih =>
      intro s
      simp only [applyActions, List.foldl_cons]
      refine Nat.le_trans
        (ih (fun x hx => has x (List.mem_cons_of_mem a hx)) (applyAction s a)) ?_
      exact applyAction_wlMeasure (has a (List.mem_cons_self a tl))

theorem foldl_dle_wlMeasure (ds : List Nat) :
    ∀ s : SchedState, wlMeasure (ds.foldl deadListErase s).wl ≤ wlMeasure s.wl := by
  induction ds with
  | nil => intro s; exact Nat.le_refl _
  | cons d tl ih =>
      intro s
      rw [List.foldl_cons]
      exact Nat.le_trans (ih (deadListErase s d)) (erasingInstr_wlMeasure d s.wl)

theorem term_primary_pop {L : Nat → List Instr → LegalizeResult × List Action}
    {C : Nat → List Instr → Option (List Action × List Nat)}
    (hL : ∀ i p a, a ∈ (L i p).2 → a.mayEnqueue = false)
    {s : SchedState} {mi : Nat} {rest : List Nat}
    (ihs : ∀ s', wlMeasure s'.wl < wlMeasure s.wl → Terminates L C s')
    (hph : s.phase = .drainPrimary)
    (hpop : popBack s.wl.instList = some (mi, rest)) :
    Terminates L C s := by
  have hlen := popBack_some_length hpop
  have hm1 : rest.length + 2 * s.wl.artifactList.length < wlMeasure s.wl := by
    simp only [wlMeasure, hlen]
    omega
  cases hdead : isTriviallyDead s.prog mi with
  | true =>
      exact terminates_of_running (step_primary_dead hph hpop hdead) (ihs _ hm1)
  | false =>
      by_cases hres : (L mi s.prog).1 = .UnableToLegalize
      · have hL2 : L mi s.prog = (.UnableToLegalize, (L mi s.prog).2) := by
          rw [← hres]
        exact terminates_of_finished (step_primary_legalize_fail hph hpop hdead hL2)
      · have hL2 : L mi s.prog = ((L mi s.prog).1, (L mi s.prog).2) := rfl
        refine terminates_of_running
          (step_primary_legalize_ok hph hpop hdead hL2 hres) (ihs _ ?_)
        refine Nat.lt_of_le_of_lt
          (applyActions_wlMeasure (fun a ha => hL mi s.prog a ha) _) ?_
        exact hm1

theorem term_artifact_pop {L : Nat → List Instr → LegalizeResult × List Action}
    {C : Nat → List Instr → Option (List Action × List Nat)}
    (hC : ∀ i p acts ds, C i p = some (acts, ds) → ∀ a ∈ acts, a.mayEnqueue = false)
    {s : SchedState} {mi : Nat} {rest : List Nat}
    (ihs : ∀ s', wlMeasure s'.wl < wlMeasure s.wl → Terminates L C s')
    (hph : s.phase = .drainArtifacts)
    (hpop : popBack s.wl.artifactList = some (mi, rest)) :
    Terminates L C s := by
  have hlen := popBack_some_length hpop
  have hm1 : s.wl.instList.length + 2 * rest.length < wlMeasure s.wl := by
    simp only [wlMeasure, hlen]
    omega
  cases hdead : isTriviallyDead s.prog mi with
  | true =>
      refine terminates_of_running (step_artifact_dead hph hpop hdead) (ihs _ ?_)
      exact Nat.lt_of_le_of_lt (erasingInstr_wlMeasure mi _) hm1
  | false =>
      cases hCr : C mi s.prog with
      | some pr =>
          obtain ⟨acts, ds⟩ := pr
          refine terminates_of_running
            (step_artifact_combine_ok hph hpop hdead hCr) (ihs _ ?_)
          refine Nat.lt_of_le_of_lt (foldl_dle_wlMeasure ds _) ?_
          refine Nat.lt_of_le_of_lt
            (applyActions_wlMeasure (fun a ha => hC mi s.prog acts ds hCr a ha) _) ?_
          exact hm1
      | none =>
          refine terminates_of_running
            (step_artifact_combine_fail hph hpop hdead hCr) (ihs _ ?_)
          have hins := wlInsert_length_le s.wl.instList mi
          simp only [wlMeasure] at hm1 ⊢
          omega

end LegalizerPass
namespace LegalizerPass

theorem term_main {L : Nat → List Instr → LegalizeResult × List Action}
    {C : Nat → List Instr → Option (List Action × List Nat)}
    (hL : ∀ i p a, a ∈ (L i p).2 → a.mayEnqueue = false)
    (hC : ∀ i p acts ds, C i p = some (acts, ds) → ∀ a ∈ acts, a.mayEnqueue = false) :
    ∀ (μ : Nat) (s : SchedState), wlMeasure s.wl ≤ μ → Terminates L C s := by
  intro μ
  induction μ using Nat.strong_induction_on with
  | _ μ ih =>
      intro s hμ
      have ihs : ∀ s', wlMeasure s'.wl < wlMeasure s.wl → Terminates L C s' := by
        intro s' hlt
        exact ih (wlMeasure s'.wl) (Nat.lt_of_lt_of_le hlt hμ) s' (Nat.le_refl _)
      have hpost : ∀ t : SchedState, t.phase = .postCheck → Terminates L C t := by
        intro t hph
        by_cases hb : t.curBlocks = t.numBlocks
        · exact terminates_of_finished (step_postCheck_ok hph hb)
        · exact terminates_of_finished (step_postCheck_fail hph hb)
      cases hph : s.phase with
      | postCheck => exact hpost s hph
      | drainPrimary =>
          cases hpop : popBack s.wl.instList with
          | some pr =>
              obtain ⟨mi, rest⟩ := pr
              exact term_primary_pop hL ihs hph hpop
          | none =>
              refine terminates_of_running (step_primary_empty hph hpop) ?_
              cases hpop2 : popBack s.wl.artifactList with
              | some pr =>
                  obtain ⟨mi, rest⟩ := pr
                  exact term_artifact_pop hC ihs rfl hpop2
              | none =>
                  have hI : s.wl.instList = [] := popBack_eq_none hpop
                  refine terminates_of_running
                    (step_artifact_empty_done rfl hpop2 hI) ?_
                  exact hpost _ rfl
      | drainArtifacts =>
          cases hpop : popBack s.wl.artifactList with
          | some pr =>
              obtain ⟨mi, rest⟩ := pr
              exact term_artifact_pop hC ihs hph hpop
          | none =>
              by_cases hI : s.wl.instList = []
              · refine terminates_of_running
                  (step_artifact_empty_done hph hpop hI) ?_
                exact hpost _ rfl
              · refine terminates_of_running
                  (step_artifact_empty_loop hph hpop hI) ?_
                cases hpop2 : popBack s.wl.instList with
                | none => exact absurd (popBack_eq_none hpop2) hI
                | some pr =>
                    obtain ⟨mi, rest⟩ := pr
                    exact term_primary_pop hL ihs rfl hpop2

/-- C5 (amended): the outer loop terminates whenever the legality driver
and artifact combiner never enqueue new work through the observer (no
created/changed notification with an eligible opcode): every pop strictly
decreases the measure assigning 1 to each queued primary instruction and 2
to each queued artifact — in particular a failed combine permanently moves
an artifact to the primary classification — while for a driver that merely
re-marks an instruction as changed, which the stated interface contracts
allow, the loop can run forever (see the counterexample). -/
theorem claim5_termination (L : Nat → List Instr → LegalizeResult × List Action)
    (C : Nat → List Instr → Option (List Action × List Nat))
    (hL : ∀ i p a, a ∈ (L i p).2 → a.mayEnqueue = false)
    (hC : ∀ i p acts ds, C i p = some (acts, ds) → ∀ a ∈ acts, a.mayEnqueue = false)
    (s : SchedState) : Terminates L C s :=
  term_main hL hC (wlMeasure s.wl) s (Nat.le_refl _)

theorem claim5_termination_witness :
    Terminates alreadyLegalDriver noCombine (initState cxBlocks1) :=
  claim5_termination alreadyLegalDriver noCombine
    (by intro i p a ha; simp [alreadyLegalDriver] at ha)
    (by intro i p acts ds h; simp [noCombine] at h)
    (initState cxBlocks1)

end LegalizerPass
